import Mathlib

/-!
Verification of the S4 world-model repository: a shallow embedding of the
structured state-space layer (CNN and RNN execution modes), the per-batch-row
hidden-state cache and its selective reset, the KL-balanced loss, the unimix
smoothing of discrete latent statistics, and the dream rollout controller.

Machine floats are idealised as exact arithmetic: complex64 tensors become
functions into the complex numbers, float parameters become rationals or reals.
-/

set_option maxHeartbeats 1000000

namespace S4WM

/-- Modelled from the spec: one step of scan_SSM (s4wm/nn/s4_ssm.py, which is not under
src/).  Spec section 4.3: each step applies the discrete transition to advance the hidden
state; the new state is the transition matrix applied to the old state plus the input
vector scaled by the current input sample. -/
def scanStep {R : Type} [CommRing R] {N : ℕ} (Ab : Matrix (Fin N) (Fin N) R)
    (Bb : Fin N → R) (x : Fin N → R) (uk : R) : Fin N → R :=
  Ab.mulVec x + uk • Bb

/-- Hidden states of the scan: scanState Ab Bb u x0 k is the state after consuming the
inputs u 0, ..., u (k-1) starting from x0. -/
def scanState {R : Type} [CommRing R] {N : ℕ} (Ab : Matrix (Fin N) (Fin N) R)
    (Bb : Fin N → R) (u : ℕ → R) (x0 : Fin N → R) : ℕ → Fin N → R
  | 0 => x0
  | k + 1 => scanStep Ab Bb (scanState Ab Bb u x0 k) (u k)

/-- Modelled from the spec: output sequence of scan_SSM (s4wm/nn/s4_ssm.py, not under
src/).  Spec section 4.3: after the transition advances the state, the readout vector
produces the output, so the output at position k reads the state that has consumed
u 0 .. u k. -/
def scanOutput {R : Type} [CommRing R] {N : ℕ} (Ab : Matrix (Fin N) (Fin N) R)
    (Bb Cb : Fin N → R) (u : ℕ → R) (x0 : Fin N → R) (k : ℕ) : R :=
  Matrix.dotProduct Cb (scanState Ab Bb u x0 (k + 1))

/-- Modelled from the spec: the convolution kernel built by kernel_DPLR (s4wm/nn/s4_ssm.py,
not under src/).  Spec section 4.1 obtains the kernel by evaluating the transfer function
at the roots of unity and inverse-transforming, and states as the function's contract that
the result is the impulse response of the discretized recurrence; entry l is therefore the
readout of the l-th power of the discrete transition applied to the discrete input vector. -/
def kernelDPLR {R : Type} [CommRing R] {N : ℕ} (Ab : Matrix (Fin N) (Fin N) R)
    (Bb Cb : Fin N → R) (l : ℕ) : R :=
  Matrix.dotProduct Cb ((Ab ^ l).mulVec Bb)

/-- Modelled from the spec: causal_convolution (s4wm/nn/s4_ssm.py, not under src/).
Glossary entry: output at time t depends only on inputs at times at most t; the value is
the truncated convolution sum of the kernel with the input. -/
def causalConv {R : Type} [CommRing R] (u K : ℕ → R) (t : ℕ) : R :=
  ∑ i in Finset.range (t + 1), K i * u (t - i)

/-- CNN-mode output of S4Layer.call (src/s4wm/nn/s4_nn.py lines 181-184): the causal
convolution of the input with the DPLR kernel, plus the skip term D * u. -/
def S4LayerCNN {R : Type} [CommRing R] {N : ℕ} (Ab : Matrix (Fin N) (Fin N) R)
    (Bb Cb : Fin N → R) (D : R) (u : ℕ → R) (t : ℕ) : R :=
  causalConv u (kernelDPLR Ab Bb Cb) t + D * u t

/-- RNN-mode output of S4Layer.call (src/s4wm/nn/s4_nn.py lines 186-192): scan_SSM driven
by the discrete operator bundle from the zero initial hidden state, plus the skip term. -/
def S4LayerRNN {R : Type} [CommRing R] {N : ℕ} (Ab : Matrix (Fin N) (Fin N) R)
    (Bb Cb : Fin N → R) (D : R) (u : ℕ → R) (t : ℕ) : R :=
  scanOutput Ab Bb Cb u 0 t + D * u t

/-- A cache leaf for one batch row: the complex-valued hidden entries held per (state
dimension, model dimension) after the two vmaps in src/s4wm/nn/s4_nn.py. -/
def CacheRow (dssm dmodel : ℕ) : Type :=
  Fin dssm → Fin dmodel → ℂ

/-- The all-ones value written by reset_cache: jnp.ones((d_ssm, d_pssm_block), complex64)
(src/s4wm/scripts/torch_interface.py line 125). -/
def onesRow (dssm dmodel : ℕ) : CacheRow dssm dmodel :=
  fun _ _ => 1

/-- The full RNN-mode cache owned by TorchWrapper: one cache row per block (blocks_0..3),
layer (layers_0..1) and batch row, exactly the paths addressed by reset_cache
(src/s4wm/scripts/torch_interface.py lines 116-123). -/
def RNNCache (B dssm dmodel : ℕ) : Type :=
  Fin 4 → Fin 2 → Fin B → CacheRow dssm dmodel

/-- TorchWrapper.reset_cache (src/s4wm/scripts/torch_interface.py lines 115-127): for every
block and layer, the cache tensor is updated with .at[jnp.array([batch_idx])].set(ones).
JAX scatter semantics: every batch row whose index occurs in batch_idx is overwritten with
the all-ones row; all other rows are untouched, and out-of-range indices are silently
dropped (the default out-of-bounds mode for .at[].set). -/
def reset_cache {B dssm dmodel : ℕ} (cache : RNNCache B dssm dmodel)
    (batch_idx : List ℕ) : RNNCache B dssm dmodel :=
  fun i j b => if (b : ℕ) ∈ batch_idx then onesRow dssm dmodel else cache i j b

/-- The slice of the cache seen by one batch row: its cache row in every block and layer. -/
def cacheSlice {B dssm dmodel : ℕ} (cache : RNNCache B dssm dmodel) (b : Fin B) :
    Fin 4 → Fin 2 → CacheRow dssm dmodel :=
  fun i j => cache i j b

/-- Modelled from the spec: TorchWrapper.forward delegates to forward_RNN_mode of
s4wm/nn/s4_wm.py, which is not under src/.  Spec section 5 states the recurrence is
independent across batch rows, and the vmap axes in src/s4wm/nn/s4_nn.py (cache and inputs
mapped on the batch axis, parameters shared) make each batch row's result a function of
that row's cache slice and that row's inputs alone.  forward is therefore a single-row
step function mapped over the batch, reading each row's cache slice and writing back that
row's new cache slice. -/
def forward_rnn {B dssm dmodel : ℕ} {Inp Out : Type}
    (step : (Fin 4 → Fin 2 → CacheRow dssm dmodel) → Inp →
      Out × (Fin 4 → Fin 2 → CacheRow dssm dmodel))
    (cache : RNNCache B dssm dmodel) (inputs : Fin B → Inp) :
    (Fin B → Out) × RNNCache B dssm dmodel :=
  (fun b => (step (cacheSlice cache b) (inputs b)).1,
   fun i j b => (step (cacheSlice cache b) (inputs b)).2 i j)

/-- S4Layer cache initialization (src/s4wm/nn/s4_nn.py line 172): the hidden-state cache
starts as jnp.zeros((N,), complex64). -/
def S4Layer_cache_init (N : ℕ) : Fin N → ℂ :=
  fun _ => 0

/-- S4Layer priming (src/s4wm/nn/s4_nn.py lines 176-178): when the prime collection is
mutable the discrete bundle is recomputed and the cache is reset to
jnp.zeros((N,), complex64). -/
def S4Layer_prime_cache (N : ℕ) : Fin N → ℂ :=
  fun _ => 0

/-- The Lambda assembled in S4Layer.setup (src/s4wm/nn/s4_nn.py line 139):
jnp.clip(Lambda_re, None, -1e-4) + 1j * Lambda_im.  clip with no lower bound is min with
the upper bound; complex values are exact (real, imaginary) pairs of rationals. -/
def S4Layer_Lambda {N : ℕ} (lambda_re lambda_im : Fin N → ℚ) : Fin N → ℚ × ℚ :=
  fun k => (min (lambda_re k) (-(1 / 10000)), lambda_im k)

/-- stop_gradient (sg in src/models/s4wm/s4_wm.py via its dists import, and
src/s4wm/scripts/torch_interface.py lines 17-19): the identity on values; it only blocks
gradient flow, which does not affect the values computed here. -/
def sg {A : Type} (x : A) : A := x

/-- The kl_loss computed inside S4WorldModel.compute_loss (src/models/s4wm/s4_wm.py lines
138-145): per entry of the last axis (time), alpha * max(KL(sg(posterior) || prior), 1.0)
+ (1 - alpha) * max(KL(posterior || sg(prior)), 1.0), then summed over that axis.  kl is
the kl_divergence method of the latent distribution type, one value per time step. -/
def compute_kl_loss {D K : Type} [LinearOrderedField K] {T : ℕ}
    (kl : D → D → Fin T → K) (z_post z_prior : D) (alpha : K) : K :=
  ∑ t, (alpha * max (kl (sg z_post) z_prior t) 1
      + (1 - alpha) * max (kl z_post (sg z_prior) t) 1)

/-- S4WorldModel.compute_loss (src/models/s4wm/s4_wm.py lines 128-149): the reconstruction
loss is the summed negative log-likelihood of the true observation under the decoder's
pixel distribution (logProb, one value per time step), and the result is
beta_rec * reconstruction + beta_kl * kl_loss. -/
def compute_loss {D K : Type} [LinearOrderedField K] {T : ℕ}
    (kl : D → D → Fin T → K) (logProb : Fin T → K)
    (z_post z_prior : D) (alpha beta_rec beta_kl : K) : K :=
  beta_rec * (∑ t, -(logProb t)) + beta_kl * compute_kl_loss kl z_post z_prior alpha

/-- Default construction parameter alpha of S4WorldModel (src/models/s4wm/s4_wm.py line
35): 0.8. -/
def S4WM_alpha {K : Type} [DivisionRing K] : K := 8 / 10

/-- Default construction parameter beta_rec of S4WorldModel (line 36): 1.0. -/
def S4WM_beta_rec {K : Type} [DivisionRing K] : K := 1

/-- Default construction parameter beta_kl of S4WorldModel (line 37): 0.0. -/
def S4WM_beta_kl {K : Type} [DivisionRing K] : K := 0

/-- Modelled from the spec: OneHotDist and the categorical latent variant (the dists
module imported by src/models/s4wm/s4_wm.py is not under src/).  Spec sections 3 and 6:
each latent group is a categorical distribution over 32 classes exposing kl_divergence;
the KL between two categorical probability vectors p, q is the sum over classes of
p c * (log (p c) - log (q c)). -/
noncomputable def klCat (p q : Fin 32 → ℝ) : ℝ :=
  ∑ c, p c * (Real.log (p c) - Real.log (q c))

/-- Modelled from the spec: kl_divergence of the group-factorized discrete latent
(tfd.Independent over OneHotDist, src/models/s4wm/s4_wm.py line 162; the dists module is
not under src/).  The KL of a product of independent groups is the sum over the 32 groups
of the per-group KLs, giving one value per time step. -/
noncomputable def klIndependent {T : ℕ} (p q : Fin T → Fin 32 → Fin 32 → ℝ) :
    Fin T → ℝ :=
  fun t => ∑ g, klCat (p t g) (q t g)

/-- The KL formula asserted by claim C3, written from the spec's words for comparison with
compute_loss: the sum over the 32 latent groups of alpha * max(per-group
KL(sg(posterior) || prior), free_bits) + (1 - alpha) * max(per-group
KL(posterior || sg(prior)), free_bits), with the free-bits floor equal to 1.0, at one time
step with group probability tables p and q. -/
noncomputable def spec_kl_loss (p q : Fin 32 → Fin 32 → ℝ) (alpha : ℝ) : ℝ :=
  ∑ g, (alpha * max (klCat ((sg p) g) (q g)) 1
      + (1 - alpha) * max (klCat (p g) ((sg q) g)) 1)

/-- The analytic KL divergence between diagonal Gaussians used by the NormalDiag latent
variant (tfd.MultivariateNormalDiag, src/models/s4wm/s4_wm.py lines 163-166):
KL(N(mu1, diag sigma1) || N(mu2, diag sigma2)) summed over dimensions. -/
noncomputable def klNormalDiag {n : ℕ} (mu1 sigma1 mu2 sigma2 : Fin n → ℝ) : ℝ :=
  ∑ i, (Real.log (sigma2 i / sigma1 i)
      + (sigma1 i ^ 2 + (mu1 i - mu2 i) ^ 2) / (2 * sigma2 i ^ 2) - 1 / 2)

/-- Unimix smoothing in S4WorldModel.get_statistics (src/models/s4wm/s4_wm.py lines
178-187): logits are reshaped to 32 groups of 32 classes, probs = softmax(logits) along
the class axis, then probs is replaced by (1 - unimix) * probs + unimix * uniform with
uniform = 1/32, and the returned logits are log of these smoothed probabilities.  The
softmax output enters here as the probability table p. -/
def unimix_probs {K : Type} [Field K] (p : Fin 32 → Fin 32 → K) (u : K) :
    Fin 32 → Fin 32 → K :=
  fun g c => (1 - u) * p g c + u * (1 / 32)

/-- The trajectory lists built by S4WorldModel.dream (src/models/s4wm/s4_wm.py lines
324-341): starting from the (prior sample, hidden) pair produced by context priming, the
loop runs dream_length times; each iteration calls _open_loop_prediction (abstracted as
the step function, since the S4 blocks, statistics heads and sampling are parameters of
this claim) on the previous prior and the next dream action and appends the resulting
pair. -/
def dream_traj {Z H A : Type} (step : Z → A → Z × H) :
    (ℕ → A) → ℕ → Z × H → List (Z × H)
  | _, 0, zh => [zh]
  | acts, Nat.succ k, zh =>
      zh :: dream_traj step (fun i => acts (i + 1)) k (step zh.1 (acts 0))

/-- S4WorldModel._decode_predictions (src/models/s4wm/s4_wm.py lines 283-292): the
collected hidden and prior lists are stacked and passed once to the external decoder; the
decoded batch's time axis is indexed by the collected list, one decoded observation per
(hidden, prior) pair. -/
def decode_predictions {Z H Obs : Type} (dec : H → Z → Obs)
    (traj : List (Z × H)) : List Obs :=
  traj.map fun zh => dec zh.2 zh.1

/-- S4WorldModel.dream (src/models/s4wm/s4_wm.py lines 294-346): prime on the context
(producing one (prior, hidden) pair and returning it as the first collected pair), roll
out dream_length open-loop steps, then decode all collected pairs once. -/
def dream {Z H A Obs : Type} (prime_out : Z × H) (step : Z → A → Z × H)
    (dream_actions : ℕ → A) (dec : H → Z → Obs) (dream_length : ℕ) :
    List (Z × H) × List Obs :=
  (dream_traj step dream_actions dream_length prime_out,
   decode_predictions dec (dream_traj step dream_actions dream_length prime_out))

end S4WM

namespace S4WM

lemma scanState_zero_init {R : Type} [CommRing R] {N : ℕ} (Ab : Matrix (Fin N) (Fin N) R)
    (Bb : Fin N → R) (u : ℕ → R) (k : ℕ) :
    scanState Ab Bb u 0 (k + 1)
      = ∑ i in Finset.range (k + 1), u i • (Ab ^ (k - i)).mulVec Bb := by
  induction k with
  | zero =>
      simp [scanState, scanStep, Matrix.mulVec_zero, Matrix.one_mulVec]
  | succ k ih =>
      have hlin : Ab.mulVec (∑ i in Finset.range (k + 1), u i • (Ab ^ (k - i)).mulVec Bb)
          = ∑ i in Finset.range (k + 1), u i • (Ab ^ (k + 1 - i)).mulVec Bb := by
        rw [← Matrix.mulVecLin_apply, map_sum]
        refine Finset.sum_congr rfl fun i hi => ?_
        rw [map_smul, Matrix.mulVecLin_apply, Matrix.mulVec_mulVec, ← pow_succ']
        have : k + 1 - i = (k - i) + 1 := by
          have := Finset.mem_range.mp hi
          omega
        rw [this]
      rw [scanState, scanStep, ih, hlin]
      conv_rhs => rw [Finset.sum_range_succ]
      rw [Nat.sub_self, pow_zero, Matrix.one_mulVec]

lemma dotProduct_finset_sum {R : Type} [CommRing R] {N : ℕ} {ι : Type} (v : Fin N → R)
    (s : Finset ι) (f : ι → Fin N → R) :
    Matrix.dotProduct v (∑ i in s, f i) = ∑ i in s, Matrix.dotProduct v (f i) := by
  simp only [Matrix.dotProduct, Finset.sum_apply, Finset.mul_sum]
  exact Finset.sum_comm

lemma scanOutput_eq_causalConv {R : Type} [CommRing R] {N : ℕ}
    (Ab : Matrix (Fin N) (Fin N) R) (Bb Cb : Fin N → R) (u : ℕ → R) (t : ℕ) :
    scanOutput Ab Bb Cb u 0 t = causalConv u (kernelDPLR Ab Bb Cb) t := by
  unfold scanOutput causalConv kernelDPLR
  rw [scanState_zero_init]
  rw [dotProduct_finset_sum]
  rw [← Finset.sum_range_reflect]
  refine Finset.sum_congr rfl fun i hi => ?_
  have hi' : i < t + 1 := Finset.mem_range.mp hi
  have h1 : t + 1 - 1 - i = t - i := by omega
  have h2 : t - (t - i) = i := by omega
  rw [h1, Matrix.dotProduct_smul, smul_eq_mul, h2, mul_comm]

/-- C1: for every fixed discrete SSM operator bundle (transition Ab, input Bb, readout Cb,
skip weight D) and every complex input sequence of length at most l_max, the CNN-mode
output of S4Layer (causal convolution with the kernel built by kernel_DPLR, plus the skip
term) equals at every position the RNN-mode output obtained by iterating the discretized
recurrence from the zero initial hidden state; exact complex arithmetic stands in for the
numerical tolerance. -/
theorem C1_mode_equivalence {N : ℕ} (Ab : Matrix (Fin N) (Fin N) ℂ) (Bb Cb : Fin N → ℂ)
    (D : ℂ) (u : ℕ → ℂ) (l_max L t : ℕ) (hL : L ≤ l_max) (ht : t < L) :
    S4LayerCNN Ab Bb Cb D u t = S4LayerRNN Ab Bb Cb D u t := by
  unfold S4LayerCNN S4LayerRNN
  rw [scanOutput_eq_causalConv]

/-- Witness for C1 at a concrete one-dimensional bundle, sequence length 1 within
l_max = 1, position 0. -/
theorem C1_mode_equivalence_witness :
    (1 : ℕ) ≤ 1 ∧ (0 : ℕ) < 1 ∧
      S4LayerCNN (1 : Matrix (Fin 1) (Fin 1) ℂ) (fun _ => 1) (fun _ => 1) 1
          (fun _ => 1) 0
        = S4LayerRNN (1 : Matrix (Fin 1) (Fin 1) ℂ) (fun _ => 1) (fun _ => 1) 1
          (fun _ => 1) 0 :=
  ⟨le_refl 1, Nat.zero_lt_one,
    C1_mode_equivalence (1 : Matrix (Fin 1) (Fin 1) ℂ) (fun _ => 1) (fun _ => 1) 1
      (fun _ => 1) 1 1 0 (le_refl 1) Nat.zero_lt_one⟩

/-- C2: for every list of in-range batch indices, calling reset_cache between two forward
calls overwrites exactly the cache rows at those indices (with the all-ones row), leaves
the cache row of every other batch row unchanged in every block and layer, and the next
forward call's output and written-back cache at every non-reset row coincide with those of
a run with no reset on identical inputs. -/
theorem C2_reset_cache_frame {B dssm dmodel : ℕ} {Inp Out : Type}
    (step : (Fin 4 → Fin 2 → CacheRow dssm dmodel) → Inp →
      Out × (Fin 4 → Fin 2 → CacheRow dssm dmodel))
    (cache : RNNCache B dssm dmodel) (I : List ℕ) (inputs : Fin B → Inp)
    (hI : ∀ n ∈ I, n < B) (b : Fin B) (hb : (b : ℕ) ∉ I) :
    (∀ i j, reset_cache cache I i j b = cache i j b) ∧
    (∀ b' : Fin B, (b' : ℕ) ∈ I → ∀ i j,
        reset_cache cache I i j b' = onesRow dssm dmodel) ∧
    (forward_rnn step (reset_cache cache I) inputs).1 b
        = (forward_rnn step cache inputs).1 b ∧
    (∀ i j, (forward_rnn step (reset_cache cache I) inputs).2 i j b
        = (forward_rnn step cache inputs).2 i j b) := by
  have hslice : cacheSlice (reset_cache cache I) b = cacheSlice cache b := by
    funext i j
    simp [cacheSlice, reset_cache, hb]
  refine ⟨fun i j => by simp [reset_cache, hb],
    fun b' hb' i j => by simp [reset_cache, hb'],
    ?_, fun i j => ?_⟩
  · simp only [forward_rnn, hslice]
  · simp only [forward_rnn, hslice]

/-- Witness for C2: batch size 2, reset of row 0, observed row 1, a concrete step
function. -/
theorem C2_reset_cache_frame_witness :
    ((∀ n ∈ [(0 : ℕ)], n < 2) ∧ ((1 : ℕ) ∉ [(0 : ℕ)])) ∧
    ((∀ i j, reset_cache ((fun _ _ _ => onesRow 1 1) : RNNCache 2 1 1) [0] i j 1
        = ((fun _ _ _ => onesRow 1 1) : RNNCache 2 1 1) i j 1) ∧
     (∀ b' : Fin 2, (b' : ℕ) ∈ [(0 : ℕ)] → ∀ i j,
        reset_cache ((fun _ _ _ => onesRow 1 1) : RNNCache 2 1 1) [0] i j b'
          = onesRow 1 1) ∧
     (forward_rnn (fun s u => (u, s))
        (reset_cache ((fun _ _ _ => onesRow 1 1) : RNNCache 2 1 1) [0])
        (fun _ => (0 : ℕ))).1 1
        = (forward_rnn (fun s u => (u, s)) ((fun _ _ _ => onesRow 1 1) : RNNCache 2 1 1)
            (fun _ => (0 : ℕ))).1 1 ∧
     (∀ i j, (forward_rnn (fun s u => (u, s))
          (reset_cache ((fun _ _ _ => onesRow 1 1) : RNNCache 2 1 1) [0])
          (fun _ => (0 : ℕ))).2 i j 1
        = (forward_rnn (fun s u => (u, s)) ((fun _ _ _ => onesRow 1 1) : RNNCache 2 1 1)
            (fun _ => (0 : ℕ))).2 i j 1)) :=
  ⟨⟨by decide, by decide⟩,
    C2_reset_cache_frame (fun s u => (u, s))
      ((fun _ _ _ => onesRow 1 1) : RNNCache 2 1 1) [0]
      (fun _ => (0 : ℕ)) (by decide) 1 (by decide)⟩

/-- C6 counterexample: with the learned real part equal to 1/2 in every component —
violating the stability invariant — S4Layer setup does not fail: it silently produces the
clipped eigenvalue -1e-4 + 0i, so the offending value is clipped rather than reported. -/
theorem C6_counterexample :
    S4Layer_Lambda (N := 1) (fun _ => 1 / 2) (fun _ => 0) 0 = (-(1 / 10000), 0) ∧
      (1 / 2 : ℚ) ≠ -(1 / 10000) := by
  constructor
  · show (min (1 / 2 : ℚ) (-(1 / 10000)), (0 : ℚ)) = (-(1 / 10000), 0)
    norm_num [min_eq_right]
  · norm_num

/-- C6 amended: S4Layer initialization never fails on a stability-violating real part;
instead jnp.clip silently replaces each real part by its minimum with -1e-4 at every
setup, so the Lambda actually used downstream always satisfies re(Lambda) <= -1e-4
componentwise. -/
theorem C6_amended {N : ℕ} (lambda_re lambda_im : Fin N → ℚ) (k : Fin N) :
    S4Layer_Lambda lambda_re lambda_im k
        = (min (lambda_re k) (-(1 / 10000)), lambda_im k) ∧
      (S4Layer_Lambda lambda_re lambda_im k).1 ≤ -(1 / 10000) :=
  ⟨rfl, min_le_right _ _⟩

/-- C7 counterexample: calling reset_cache on a batch of 4 rows with the out-of-range
index 5 is a silent no-op: the embedded reset (with JAX's documented drop semantics for
out-of-bounds scatter indices) returns the cache unchanged, and no error is reported to
the caller. -/
theorem C7_counterexample :
    reset_cache ((fun _ _ _ _ _ => 0) : RNNCache 4 1 1) [5]
      = ((fun _ _ _ _ _ => 0) : RNNCache 4 1 1) := by
  funext i j b r s
  have hb : ¬ ((b : ℕ) = 5) := by
    have := b.isLt
    omega
  simp [reset_cache, hb]

/-- C7 amended: an out-of-range batch index passed to reset_cache raises no error and is
silently dropped: removing it from the index list leaves the result of reset_cache
byte-for-byte unchanged, while the remaining in-range indices still take effect. -/
theorem C7_amended {B dssm dmodel : ℕ} (cache : RNNCache B dssm dmodel) (I : List ℕ)
    (n : ℕ) (hn : B ≤ n) :
    reset_cache cache (n :: I) = reset_cache cache I := by
  funext i j b
  have hbn : (b : ℕ) ≠ n := by
    have := b.isLt
    omega
  simp [reset_cache, List.mem_cons, hbn]

/-- Witness for C7 amended: batch size 2, dropping the out-of-range index 5 from the
singleton list. -/
theorem C7_amended_witness :
    (2 : ℕ) ≤ 5 ∧
      reset_cache ((fun _ _ _ _ _ => 0) : RNNCache 2 1 1) [5]
        = reset_cache ((fun _ _ _ _ _ => 0) : RNNCache 2 1 1) [] :=
  ⟨by decide, C7_amended ((fun _ _ _ _ _ => 0) : RNNCache 2 1 1) [] 5 (by decide)⟩

/-- C9: reset_cache writes the all-ones complex value into every reset row in every block
and layer, whereas the hidden-state cache at sequence start is all-zeros both at layer
initialization and at priming. -/
theorem C9_reset_ones_init_zeros {B dssm dmodel : ℕ} (cache : RNNCache B dssm dmodel)
    (I : List ℕ) (b : Fin B) (hb : (b : ℕ) ∈ I) :
    (∀ i j r s, reset_cache cache I i j b r s = 1) ∧
    (∀ N k, S4Layer_cache_init N k = 0) ∧
    (∀ N k, S4Layer_prime_cache N k = 0) := by
  refine ⟨fun i j r s => ?_, fun N k => rfl, fun N k => rfl⟩
  simp [reset_cache, hb, onesRow]

lemma klCat_self (p : Fin 32 → ℝ) : klCat p p = 0 := by
  simp [klCat]

/-- C3 counterexample: with posterior equal to the prior (every group uniform), a perfect
reconstruction, one time step, beta_rec = beta_kl = 1 and the default alpha = 4/5,
compute_loss returns 1 (the free-bits floor applied once to the group-summed KL), while
the claim's formula — the floor applied per group and then summed over the 32 groups —
gives 32. -/
theorem C3_counterexample :
    compute_loss (T := 1) (fun a b => klIndependent a b) (fun _ => (0 : ℝ))
        (fun _ _ _ => 1 / 32) (fun _ _ _ => 1 / 32) (4 / 5) 1 1 = 1 ∧
    (1 : ℝ) * (∑ t : Fin 1, -(0 : ℝ))
        + 1 * spec_kl_loss (fun _ _ => 1 / 32) (fun _ _ => 1 / 32) (4 / 5) = 32 ∧
    (1 : ℝ) ≠ 32 := by
  have hmax : max (0 : ℝ) 1 = 1 := max_eq_right zero_le_one
  have hind : klIndependent (T := 1) (fun _ _ _ => 1 / 32) (fun _ _ _ => 1 / 32)
      = fun _ => 0 := by
    funext t
    simp [klIndependent, klCat_self]
  refine ⟨?_, ?_, by norm_num⟩
  · simp only [compute_loss, compute_kl_loss, sg, hind, hmax]
    norm_num
  · simp only [spec_kl_loss, sg, klCat_self, hmax]
    rw [Finset.sum_const, Finset.card_univ]
    simp

/-- C3 amended: compute_loss returns beta_rec * reconstruction + beta_kl * kl_loss, where
reconstruction is the summed negative log-likelihood of the observation and kl_loss is the
sum over the time axis of alpha * max(KL(sg(posterior) || prior), 1.0) + (1 - alpha) *
max(KL(posterior || sg(prior)), 1.0); KL here is the divergence of the whole
group-factorized latent, i.e. the per-group KLs are summed over the 32 groups before the
free-bits floor of 1.0 is applied, not floored per group. -/
theorem C3_amended {T : ℕ} (p q : Fin T → Fin 32 → Fin 32 → ℝ) (logProb : Fin T → ℝ)
    (alpha b_rec b_kl : ℝ) :
    compute_loss (fun a b => klIndependent a b) logProb p q alpha b_rec b_kl
      = b_rec * (∑ t, -(logProb t))
        + b_kl * ∑ t, (alpha * max (∑ g, klCat (p t g) (q t g)) 1
            + (1 - alpha) * max (∑ g, klCat (p t g) (q t g)) 1) := rfl

/-- C8 counterexample: with alpha = 1/2 and one-dimensional diagonal Gaussians — posterior
N(0, 1), prior N(0, 1/4) — the total KL term of compute_loss changes when posterior and
prior are swapped: both balanced halves equal KL(posterior || prior) in value, and the two
KL directions differ (15/2 - log 4 versus the floored value 1). -/
theorem C8_counterexample :
    compute_kl_loss (T := 1)
        (fun a b _ => klNormalDiag (n := 1) a.1 a.2 b.1 b.2)
        ((fun _ => 0), (fun _ => 1)) ((fun _ => 0), (fun _ => 1 / 4)) (1 / 2)
      ≠ compute_kl_loss (T := 1)
        (fun a b _ => klNormalDiag (n := 1) a.1 a.2 b.1 b.2)
        ((fun _ => 0), (fun _ => 1 / 4)) ((fun _ => 0), (fun _ => 1)) (1 / 2) := by
  have hlog4 : Real.log 4 = 2 * Real.log 2 := by
    rw [show (4 : ℝ) = 2 ^ 2 by norm_num, Real.log_pow]
    push_cast
    ring
  have h2 : Real.log 2 < 0.6931471808 := Real.log_two_lt_d9
  have h4 : Real.log 4 < 1.4 := by
    rw [hlog4]
    linarith
  have e1 : klNormalDiag (n := 1) (fun _ => 0) (fun _ => 1) (fun _ => 0) (fun _ => 1 / 4)
      = 15 / 2 - Real.log 4 := by
    simp only [klNormalDiag, Fin.sum_univ_one]
    rw [show ((1 : ℝ) / 4) / 1 = ((4 : ℝ))⁻¹ by norm_num, Real.log_inv]
    norm_num
    ring
  have e2 : klNormalDiag (n := 1) (fun _ => 0) (fun _ => 1 / 4) (fun _ => 0) (fun _ => 1)
      = Real.log 4 - 15 / 32 := by
    simp only [klNormalDiag, Fin.sum_univ_one]
    rw [show (1 : ℝ) / ((1 : ℝ) / 4) = (4 : ℝ) by norm_num]
    norm_num
    ring
  have hmax1 : max (15 / 2 - Real.log 4) (1 : ℝ) = 15 / 2 - Real.log 4 :=
    max_eq_left (by linarith)
  have hmax2 : max (Real.log 4 - 15 / 32) (1 : ℝ) = 1 :=
    max_eq_right (by linarith)
  simp only [compute_kl_loss, sg, Fin.sum_univ_one, e1, e2, hmax1, hmax2]
  intro h
  linarith

/-- C8 amended: swapping the roles of posterior and prior leaves the total KL term of
compute_loss with alpha = 1/2 unchanged whenever the two latent distributions are diagonal
Gaussians sharing the same scale vector, since KL is then symmetric for the pair; in
general both balanced halves equal KL(posterior || prior) in value, so swapping replaces
it by KL(prior || posterior), which need not agree. -/
theorem C8_amended {n : ℕ} (mu1 mu2 sigma : Fin n → ℝ) :
    compute_kl_loss (T := 1) (fun a b _ => klNormalDiag a.1 a.2 b.1 b.2)
        (mu1, sigma) (mu2, sigma) (1 / 2)
      = compute_kl_loss (T := 1) (fun a b _ => klNormalDiag a.1 a.2 b.1 b.2)
        (mu2, sigma) (mu1, sigma) (1 / 2) := by
  have hsym : klNormalDiag mu1 sigma mu2 sigma = klNormalDiag mu2 sigma mu1 sigma := by
    unfold klNormalDiag
    refine Finset.sum_congr rfl fun i _ => ?_
    ring
  simp [compute_kl_loss, sg, hsym]

/-- C5: for any softmax output p (componentwise nonnegative, each group summing to 1), the
unimix-smoothed probabilities with u = 1/100 keep every one of the 32 class probabilities
in each of the 32 groups at least u/32, every group still sums to exactly 1, and the
exponential of each returned logit (the log of the smoothed probability) recovers that
probability. -/
theorem C5_unimix_floor (p : Fin 32 → Fin 32 → ℝ)
    (hpos : ∀ g c, 0 ≤ p g c) (hsum : ∀ g, ∑ c, p g c = 1) :
    (∀ g c, 1 / 100 / 32 ≤ unimix_probs p (1 / 100) g c) ∧
    (∀ g, ∑ c, unimix_probs p (1 / 100) g c = 1) ∧
    (∀ g c, Real.exp (Real.log (unimix_probs p (1 / 100) g c))
        = unimix_probs p (1 / 100) g c) := by
  have hfloor : ∀ g c, 1 / 100 / 32 ≤ unimix_probs p (1 / 100) g c := by
    intro g c
    have h1 : (0 : ℝ) ≤ (1 - 1 / 100) * p g c :=
      mul_nonneg (by norm_num) (hpos g c)
    unfold unimix_probs
    linarith
  refine ⟨hfloor, fun g => ?_, fun g c => ?_⟩
  · unfold unimix_probs
    rw [Finset.sum_add_distrib, ← Finset.mul_sum, hsum g, Finset.sum_const,
      Finset.card_univ]
    simp
    norm_num
  · exact Real.exp_log (lt_of_lt_of_le (by norm_num) (hfloor g c))

/-- Witness for C5 at the uniform softmax output. -/
theorem C5_unimix_floor_witness :
    ((∀ g c : Fin 32, (0 : ℝ) ≤ (fun _ _ : Fin 32 => (1 : ℝ) / 32) g c) ∧
     (∀ g : Fin 32, ∑ c, (fun _ _ : Fin 32 => (1 : ℝ) / 32) g c = 1)) ∧
    ((∀ g c, 1 / 100 / 32 ≤ unimix_probs (fun _ _ => (1 : ℝ) / 32) (1 / 100) g c) ∧
     (∀ g, ∑ c, unimix_probs (fun _ _ => (1 : ℝ) / 32) (1 / 100) g c = 1) ∧
     (∀ g c, Real.exp (Real.log (unimix_probs (fun _ _ => (1 : ℝ) / 32) (1 / 100) g c))
        = unimix_probs (fun _ _ => (1 : ℝ) / 32) (1 / 100) g c)) :=
  ⟨⟨fun g c => by norm_num, fun g => by
      rw [Finset.sum_const, Finset.card_univ]
      simp⟩,
    C5_unimix_floor (fun _ _ => (1 : ℝ) / 32) (fun g c => by norm_num) (fun g => by
      rw [Finset.sum_const, Finset.card_univ]
      simp)⟩

/-- C10: with the default construction parameters beta_rec = 1, beta_kl = 0 and
alpha = 4/5, compute_loss returns the reconstruction loss alone, and its value is
independent of the posterior and prior latent distributions. -/
theorem C10_default_loss {D K : Type} [LinearOrderedField K] {T : ℕ}
    (kl : D → D → Fin T → K) (logProb : Fin T → K) (p q p' q' : D) :
    compute_loss kl logProb p q S4WM_alpha S4WM_beta_rec S4WM_beta_kl
        = ∑ t, -(logProb t) ∧
    compute_loss kl logProb p q S4WM_alpha S4WM_beta_rec S4WM_beta_kl
        = compute_loss kl logProb p' q' S4WM_alpha S4WM_beta_rec S4WM_beta_kl := by
  unfold compute_loss S4WM_beta_rec S4WM_beta_kl
  constructor <;> ring

lemma dream_traj_length {Z H A : Type} (step : Z → A → Z × H) :
    ∀ (acts : ℕ → A) (k : ℕ) (zh : Z × H),
      (dream_traj step acts k zh).length = k + 1 := by
  intro acts k
  induction k generalizing acts with
  | zero => intro zh; rfl
  | succ k ih => intro zh; simp [dream_traj, ih]

/-- C4: for every dream_length K, dream collects exactly K + 1 (hidden, latent-sample)
pairs — the context pair produced by priming plus one pair per rollout step — and the
decoded predicted-observation batch, produced by a single decoder pass over the collected
pairs, has length K + 1 along the time axis. -/
theorem C4_dream_length {Z H A Obs : Type} (prime_out : Z × H) (step : Z → A → Z × H)
    (acts : ℕ → A) (dec : H → Z → Obs) (K : ℕ) :
    (dream prime_out step acts dec K).1.length = K + 1 ∧
    (dream prime_out step acts dec K).2.length = K + 1 := by
  constructor <;> simp [dream, decode_predictions, dream_traj_length]

/-- Witness for C9: batch size 1, resetting row 0. -/
theorem C9_reset_ones_init_zeros_witness :
    ((0 : ℕ) ∈ [(0 : ℕ)]) ∧
    ((∀ i j r s, reset_cache ((fun _ _ _ _ _ => 0) : RNNCache 1 1 1) [0] i j 0 r s
        = 1) ∧
     (∀ N k, S4Layer_cache_init N k = 0) ∧
     (∀ N k, S4Layer_prime_cache N k = 0)) :=
  ⟨by decide, C9_reset_ones_init_zeros ((fun _ _ _ _ _ => 0) : RNNCache 1 1 1) [0] 0
    (by decide)⟩

end S4WM
